import Mathlib

/-!
Verification of the SSI credential engine: a shallow embedding of the
service's core modules (`utils.py`, `statuslist.py`, `storage.py`,
`oidc_like.py`, `did.py`, `crypto.py`) as executable Lean definitions,
with theorems settling the specification's claims about them.

Bytes are modelled as `Nat` values below 256, byte strings as `List Nat`,
and 32-bit machine arithmetic as `Nat` arithmetic reduced modulo `2 ^ 32`.
-/

set_option maxRecDepth 100000
set_option linter.unusedVariables false

namespace SSI

/-- Reduce modulo `2 ^ 32`: the word size of SHA-256 arithmetic. -/
def m32 (x : Nat) : Nat := x % 4294967296

/-- Right rotation of a 32-bit word by `n` places. -/
def rotr (n x : Nat) : Nat := m32 ((x >>> n) ||| (x <<< (32 - n)))

/-- The SHA-256 round constants, written in decimal. -/
def shaK : List Nat :=
  [1116352408, 1899447441, 3049323471, 3921009573, 961987163,
   1508970993, 2453635748, 2870763221, 3624381080, 310598401,
   607225278, 1426881987, 1925078388, 2162078206, 2614888103,
   3248222580, 3835390401, 4022224774, 264347078, 604807628,
   770255983, 1249150122, 1555081692, 1996064986, 2554220882,
   2821834349, 2952996808, 3210313671, 3336571891, 3584528711,
   113926993, 338241895, 666307205, 773529912, 1294757372,
   1396182291, 1695183700, 1986661051, 2177026350, 2456956037,
   2730485921, 2820302411, 3259730800, 3345764771, 3516065817,
   3600352804, 4094571909, 275423344, 430227734, 506948616,
   659060556, 883997877, 958139571, 1322822218, 1537002063,
   1747873779, 1955562222, 2024104815, 2227730452, 2361852424,
   2428436474, 2756734187, 3204031479, 3329325298]

/-- The SHA-256 initial hash state, written in decimal. -/
def shaH0 : List Nat :=
  [1779033703, 3144134277, 1013904242, 2773480762,
   1359893119, 2600822924, 528734635, 1541459225]

/-- Big-endian assembly of 4-byte groups into 32-bit words. -/
def bytesToWords : List Nat → List Nat
  | b0 :: b1 :: b2 :: b3 :: rest =>
      (((b0 * 256 + b1) * 256 + b2) * 256 + b3) :: bytesToWords rest
  | _ => []

/-- Big-endian 8-byte encoding of a length in bits. -/
def lenBE8 (n : Nat) : List Nat :=
  [(n / 72057594037927936) % 256, (n / 281474976710656) % 256,
   (n / 1099511627776) % 256, (n / 4294967296) % 256,
   (n / 16777216) % 256, (n / 65536) % 256, (n / 256) % 256, n % 256]

/-- SHA-256 message padding: append `0x80`, zeros, and the 64-bit length. -/
def padMsg (msg : List Nat) : List Nat :=
  let len := msg.length
  let zeros := (64 - (len + 9) % 64) % 64
  msg ++ 128 :: List.replicate zeros 0 ++ lenBE8 (len * 8)

/-- Split a byte list into 64-byte blocks; `fuel` bounds the recursion. -/
def chunks64 (fuel : Nat) (l : List Nat) : List (List Nat) :=
  match fuel with
  | 0 => []
  | fuel + 1 =>
    match l with
    | [] => []
    | _ => l.take 64 :: chunks64 fuel (l.drop 64)

/-- SHA-256 message schedule: `acc` holds the words produced so far, newest
first; `k` counts the remaining words to produce. -/
def sched (acc : List Nat) : Nat → List Nat
  | 0 => acc.reverse
  | k + 1 =>
    let w2 := acc.getD 1 0
    let w7 := acc.getD 6 0
    let w15 := acc.getD 14 0
    let w16 := acc.getD 15 0
    let s0 := (rotr 7 w15) ^^^ (rotr 18 w15) ^^^ (w15 >>> 3)
    let s1 := (rotr 17 w2) ^^^ (rotr 19 w2) ^^^ (w2 >>> 10)
    sched (m32 (w16 + s0 + w7 + s1) :: acc) k

/-- One SHA-256 round on the 8-word working state. -/
def shaRound (st : List Nat) (k w : Nat) : List Nat :=
  let a := st.getD 0 0
  let b := st.getD 1 0
  let c := st.getD 2 0
  let d := st.getD 3 0
  let e := st.getD 4 0
  let f := st.getD 5 0
  let g := st.getD 6 0
  let h := st.getD 7 0
  let s1 := (rotr 6 e) ^^^ (rotr 11 e) ^^^ (rotr 25 e)
  let ch := (e &&& f) ^^^ ((e ^^^ 4294967295) &&& g)
  let t1 := m32 (h + s1 + ch + k + w)
  let s0 := (rotr 2 a) ^^^ (rotr 13 a) ^^^ (rotr 22 a)
  let maj := (a &&& b) ^^^ (a &&& c) ^^^ (b &&& c)
  let t2 := m32 (s0 + maj)
  [m32 (t1 + t2), a, b, c, m32 (d + t1), e, f, g]

/-- Fold the 64 compression rounds over the round constants and schedule. -/
def shaRounds : List Nat → List Nat → List Nat → List Nat
  | k :: ks, w :: ws, st => shaRounds ks ws (shaRound st k w)
  | _, _, st => st

/-- Process one 64-byte block, updating the 8-word hash state. -/
def shaBlock (hs : List Nat) (block : List Nat) : List Nat :=
  let w16 := bytesToWords block
  let w := sched w16.reverse 48
  let st := shaRounds shaK w hs
  List.zipWith (fun x y => m32 (x + y)) hs st

/-- Big-endian serialization of 32-bit words back to bytes. -/
def wordsToBytes : List Nat → List Nat
  | w :: ws =>
      (w / 16777216) % 256 :: (w / 65536) % 256 :: (w / 256) % 256 :: w % 256
        :: wordsToBytes ws
  | [] => []

/-- SHA-256 of a byte string. -/
def sha256 (msg : List Nat) : List Nat :=
  let padded := padMsg msg
  wordsToBytes ((chunks64 padded.length padded).foldl shaBlock shaH0)

/-- UTF-8 encoding of a single Unicode code point. -/
def utf8Char (c : Nat) : List Nat :=
  if c < 128 then [c]
  else if c < 2048 then [192 + c / 64, 128 + c % 64]
  else if c < 65536 then [224 + c / 4096, 128 + (c / 64) % 64, 128 + c % 64]
  else [240 + c / 262144, 128 + (c / 4096) % 64, 128 + (c / 64) % 64,
        128 + c % 64]

/-- UTF-8 bytes of a string, as Python's `str.encode()` produces. -/
def strBytes (s : String) : List Nat :=
  s.data.foldr (fun c acc => utf8Char c.toNat ++ acc) []

/-- The base64url alphabet, indexed by 6-bit value. -/
def b64c (v : Nat) : Char :=
  if v < 26 then Char.ofNat (65 + v)
  else if v < 52 then Char.ofNat (97 + v - 26)
  else if v < 62 then Char.ofNat (48 + v - 52)
  else if v = 62 then Char.ofNat 45
  else Char.ofNat 95

/-- Unpadded base64url character stream of a byte string: the result of
Python's `base64.urlsafe_b64encode(data)` with the `=` padding stripped. -/
def b64chunks : List Nat → List Char
  | a :: b :: c :: rest =>
      b64c (a / 4) :: b64c ((a % 4) * 16 + b / 16)
        :: b64c ((b % 16) * 4 + c / 64) :: b64c (c % 64) :: b64chunks rest
  | [a, b] => [b64c (a / 4), b64c ((a % 4) * 16 + b / 16), b64c ((b % 16) * 4)]
  | [a] => [b64c (a / 4), b64c ((a % 4) * 16)]
  | [] => []

/-- `app.utils.b64url`: base64url encoding without padding. -/
def b64url (data : List Nat) : String := String.mk (b64chunks data)

/-- Lower-case hex digit for a value below 16. -/
def hexDigit (n : Nat) : Char :=
  if n < 10 then Char.ofNat (48 + n) else Char.ofNat (87 + n)

/-- Lower-case hex character stream of a byte string. -/
def hexBytes : List Nat → List Char
  | b :: rest => hexDigit (b / 16) :: hexDigit (b % 16) :: hexBytes rest
  | [] => []

/-- Python's `bytes.hex()`: lower-case hex string of a byte string. -/
def hexLower (data : List Nat) : String := String.mk (hexBytes data)

/-! ### JSON values and Python `json.dumps`

Attribute values are arbitrary JSON (`spec.md` §9: "Attributes are arbitrary
JSON"); we model them with a mutual inductive family so that all recursions
stay structural (and hence kernel-reducible). Floats are not modelled. -/

mutual
inductive Json where
  | null : Json
  | bool : Bool → Json
  | num : Int → Json
  | str : String → Json
  | arr : JList → Json
  | obj : JKVs → Json
deriving DecidableEq
inductive JList where
  | nil : JList
  | cons : Json → JList → JList
deriving DecidableEq
inductive JKVs where
  | nil : JKVs
  | cons : String → Json → JKVs → JKVs
deriving DecidableEq
end

/-- Convert a Lean list of JSON values to a `JList` (notation helper). -/
def JList.ofList : List Json → JList
  | [] => .nil
  | x :: tl => .cons x (JList.ofList tl)

/-- Convert a `JList` to a Lean list. -/
def JList.toList : JList → List Json
  | .nil => []
  | .cons x tl => x :: JList.toList tl

/-- Convert a Lean association list to a `JKVs` (notation helper). -/
def JKVs.ofList : List (String × Json) → JKVs
  | [] => .nil
  | (k, v) :: tl => .cons k v (JKVs.ofList tl)

/-- Convert a `JKVs` to a Lean association list. -/
def JKVs.toPairs : JKVs → List (String × Json)
  | .nil => []
  | .cons k v tl => (k, v) :: JKVs.toPairs tl

mutual
/-- Nesting depth of a JSON value; used as recursion fuel for serialization. -/
def jdepth : Json → Nat
  | .null => 1
  | .bool _ => 1
  | .num _ => 1
  | .str _ => 1
  | .arr xs => 1 + jdepthL xs
  | .obj kvs => 1 + jdepthK kvs
def jdepthL : JList → Nat
  | .nil => 0
  | .cons x tl => max (jdepth x) (jdepthL tl)
def jdepthK : JKVs → Nat
  | .nil => 0
  | .cons _ v tl => max (jdepth v) (jdepthK tl)
end

/-- Four lower-case hex digits, as in a JSON `\uXXXX` escape. -/
def hexDigit4 (n : Nat) : List Char :=
  [hexDigit ((n / 4096) % 16), hexDigit ((n / 256) % 16),
   hexDigit ((n / 16) % 16), hexDigit (n % 16)]

/-- Escape one character the way Python's `json.dumps` does with its default
`ensure_ascii=True`: the two-character escapes for quote, backslash and the
common control characters, `\uXXXX` for other non-printable or non-ASCII
characters, and surrogate pairs beyond the BMP. -/
def escChar (c : Char) : List Char :=
  let n := c.toNat
  if n = 34 then [Char.ofNat 92, Char.ofNat 34]
  else if n = 92 then [Char.ofNat 92, Char.ofNat 92]
  else if n = 8 then [Char.ofNat 92, 'b']
  else if n = 9 then [Char.ofNat 92, 't']
  else if n = 10 then [Char.ofNat 92, 'n']
  else if n = 12 then [Char.ofNat 92, 'f']
  else if n = 13 then [Char.ofNat 92, 'r']
  else if 32 ≤ n && n ≤ 126 then [c]
  else if n < 65536 then Char.ofNat 92 :: 'u' :: hexDigit4 n
  else
    (Char.ofNat 92 :: 'u' :: hexDigit4 (55296 + (n - 65536) / 1024)) ++
      (Char.ofNat 92 :: 'u' :: hexDigit4 (56320 + (n - 65536) % 1024))

/-- A double-quoted, escaped JSON string literal. -/
def quoteStr (s : String) : List Char :=
  Char.ofNat 34 :: (s.data.flatMap escChar) ++ [Char.ofNat 34]

/-- Decimal character representation of an integer, as Python prints it. -/
def intChars (i : Int) : List Char := (toString i).data

/-- Lexicographic comparison of character lists by code point, the order
Python uses to compare strings. -/
def charListLt : List Char → List Char → Bool
  | [], [] => false
  | [], _ :: _ => true
  | _ :: _, [] => false
  | a :: as, b :: bs =>
    if a.toNat < b.toNat then true
    else if b.toNat < a.toNat then false
    else charListLt as bs

/-- Python's `<` on strings: code-point lexicographic order. -/
def strLt (a b : String) : Bool := charListLt a.data b.data

/-- Insert a key-value pair into a list sorted by key (code-point order),
implementing Python's `sorted` over dict keys. -/
def insertByKey (p : String × Json) : List (String × Json) → List (String × Json)
  | [] => [p]
  | q :: tl => if strLt p.1 q.1 then p :: q :: tl else q :: insertByKey p tl

/-- Sort an object's fields by key, ascending. -/
def sortKVs (kvs : JKVs) : List (String × Json) :=
  kvs.toPairs.foldr insertByKey []

/-- Serialize a JSON value with the given item and key separators, recursing
on `fuel` (any bound at least `jdepth`); objects are emitted with keys
sorted ascending, matching `json.dumps(v, sort_keys=True)`. -/
def dumpsF (isep ksep : List Char) : Nat → Json → List Char
  | 0, _ => []
  | fuel + 1, j =>
    match j with
    | .null => "null".data
    | .bool true => "true".data
    | .bool false => "false".data
    | .num i => intChars i
    | .str s => quoteStr s
    | .arr xs =>
      match xs.toList with
      | [] => "[]".data
      | x :: tl =>
          '[' :: dumpsF isep ksep fuel x ++
            (tl.flatMap (fun y => isep ++ dumpsF isep ksep fuel y)) ++ [']']
    | .obj kvs =>
      match sortKVs kvs with
      | [] => [Char.ofNat 123, Char.ofNat 125]
      | (k, v) :: tl =>
          Char.ofNat 123 ::
            (quoteStr k ++ ksep ++ dumpsF isep ksep fuel v ++
              tl.flatMap (fun q =>
                isep ++ quoteStr q.1 ++ ksep ++ dumpsF isep ksep fuel q.2)) ++
            [Char.ofNat 125]

/-- `json.dumps(v, sort_keys=True)` with Python's default separators,
which put a space after each item comma and each key colon. -/
def pyDumps (j : Json) : String :=
  String.mk (dumpsF [',', ' '] [':', ' '] (jdepth j) j)

/-- Canonical JSON in the sense of the specification: keys sorted ascending
and no insignificant whitespace (separators without spaces). -/
def canonicalJson (j : Json) : String :=
  String.mk (dumpsF [','] [':'] (jdepth j) j)

/-! ### `app.utils`: the Merkle commitment and its stub verifier -/

/-- The result record of `merkle_commit`: `order`, base64url `root`, and the
per-leaf placeholder opening paths. -/
structure MerkleCommit where
  order : List String
  root : String
  paths : List (List (String × String))
deriving DecidableEq

/-- Dictionary lookup in an attribute mapping (first binding wins). -/
def lookupAttr (attrs : List (String × Json)) (k : String) : Option Json :=
  (attrs.find? (fun p => p.1 = k)).map (fun p => p.2)

/-- One leaf of the commitment:
`hashlib.sha256(f"{key}:{json.dumps(attrs[key], sort_keys=True)}".encode())`.
`none` when `key` is absent (Python raises `KeyError`). -/
def leafHash (attrs : List (String × Json)) (k : String) : Option (List Nat) :=
  (lookupAttr attrs k).map (fun v => sha256 (strBytes (k ++ ":" ++ pyDumps v)))

/-- The fixed placeholder opening path attached to every leaf. -/
def stubPath : List (String × String) :=
  [(b64url (sha256 (strBytes "left")), "L"),
   (b64url (sha256 (strBytes "right")), "R")]

/-- The leaf list comprehension of `merkle_commit`: `none` as soon as a key
of `order` is missing from `attrs` (Python's `KeyError`). -/
def leavesOf (attrs : List (String × Json)) : List String →
    Option (List (List Nat))
  | [] => some []
  | k :: tl =>
    (leafHash attrs k).bind (fun b => (leavesOf attrs tl).map (fun bs => b :: bs))

/-- `app.utils.merkle_commit`: leaves hashed per `leafHash` in `order`,
placeholder paths, and `root = b64url(sha256(leaf_0 || leaf_1 || ...))`.
`none` when some key of `order` is missing from `attrs`. -/
def merkle_commit (attrs : List (String × Json)) (order : List String) :
    Option MerkleCommit :=
  (leavesOf attrs order).map (fun leaves =>
    { order := order,
      root := b64url (sha256 leaves.flatten),
      paths := order.map (fun _ => stubPath) })

/-- `app.utils.verify_merkle_proofs`: the stub verifier. -/
def verify_merkle_proofs (root : String) (order : List String)
    (paths : List (List (String × String)))
    (revealed : List (String × Json)) : Bool :=
  true

/-! ### The relational state: credentials, revocations, status lists

A shallow embedding of the three tables the claims touch, with rows in
insertion order, and of the SQL statements `statuslist.py` and `storage.py`
run against them. -/

/-- The JSON `status` column of a credential: `{list_id, index}`. -/
structure CredStatus where
  list_id : String
  index : Nat
deriving DecidableEq

/-- A row of the `credentials` table. -/
structure Credential where
  id : String
  issuer : String
  subject : String
  schema : String
  attrs : List (String × Json)
  merkle : MerkleCommit
  status : CredStatus
  issued_at : Int
deriving DecidableEq

/-- A row of the `statuslists` table. -/
structure StatusListRow where
  list_id : String
  issuer : String
  bitmap : List Nat
deriving DecidableEq

/-- The database state visible to the status-list and storage modules. -/
structure DB where
  credentials : List Credential
  revocations : List (String × Nat)
  statuslists : List StatusListRow
deriving DecidableEq

/-- `SELECT MAX((status->>'index')::int) FROM credentials WHERE
status->>'list_id'=:l`: `none` when the list has no credentials. -/
def maxIndex? (db : DB) (l : String) : Option Nat :=
  match (db.credentials.filter (fun c => c.status.list_id = l)).map
      (fun c => c.status.index) with
  | [] => none
  | x :: tl => some (tl.foldl max x)

/-- `StatusListManager._get_or_create_list`: resolve `status:<issuer_did>`,
inserting a row with an empty bitmap when absent. -/
def get_or_create_list (db : DB) (issuer_did : String) : DB × String :=
  let list_id := "status:" ++ issuer_did
  if db.statuslists.any (fun r => r.list_id = list_id) then (db, list_id)
  else ({ db with statuslists :=
            db.statuslists ++ [⟨list_id, issuer_did, []⟩] }, list_id)

/-- Python's `or` on integers: the left operand when truthy (nonzero),
otherwise the right operand. -/
def pyOrInt (a b : Int) : Int := if a = 0 then b else a

/-- `StatusListManager.allocate`: create the list if needed, read
`COALESCE(MAX(index), -1)` over the list's credentials, and return
`(row[0] or -1) + 1` as the fresh index. -/
def allocate (db : DB) (issuer_did : String) : DB × String × Int :=
  let (db1, list_id) := get_or_create_list db issuer_did
  let coalesced : Int :=
    match maxIndex? db1 list_id with
    | none => -1
    | some v => (v : Int)
  (db1, list_id, pyOrInt coalesced (-1) + 1)

/-- `StatusListManager.is_revoked`: read the persisted bitmap; absent row or
out-of-range byte means `false`, otherwise test
`bitmap[idx // 8] & (1 << (idx % 8)) != 0`. -/
def is_revoked (db : DB) (l : String) (idx : Nat) : Bool :=
  match db.statuslists.find? (fun r => r.list_id = l) with
  | none => false
  | some row =>
    if idx / 8 ≥ row.bitmap.length then false
    else ((row.bitmap.getD (idx / 8) 0) &&& (1 <<< (idx % 8))) != 0

/-- The JSON object `publish` returns: `{id, encoding, data}`. -/
structure PublishResult where
  id : String
  encoding : String
  data : String
deriving DecidableEq

/-- `bitmap[idx // 8] |= 1 << (idx % 8)` on a bytearray: `none` models the
`IndexError` Python would raise for an out-of-range byte index. -/
def setBitO (bm : List Nat) (idx : Nat) : Option (List Nat) :=
  if idx / 8 < bm.length then
    some (bm.set (idx / 8) ((bm.getD (idx / 8) 0) ||| (1 <<< (idx % 8))))
  else none

/-- Fold `setBitO` over a list of revoked indices. -/
def setBits (bm? : Option (List Nat)) (idxs : List Nat) : Option (List Nat) :=
  idxs.foldl (fun acc i => acc.bind (fun bm => setBitO bm i)) bm?

/-- `COALESCE(MAX((status->>'index')::int), 0)` over the list's
credentials, as `publish` reads it. -/
def coalesceMax0 (db : DB) (l : String) : Nat :=
  match maxIndex? db l with
  | none => 0
  | some v => v

/-- `StatusListManager.publish`: re-derive the bitmap of `size = mx + 1` bits
(where `mx = COALESCE(MAX(index), 0)`) from the `revocations` table, write it
back to the `statuslists` row, and return it hex-encoded. -/
def publish (db : DB) (l : String) : Option (DB × PublishResult) :=
  let mx := coalesceMax0 db l
  let bytes_len := (mx + 1 + 7) / 8
  let idxs := (db.revocations.filter (fun p => p.1 = l)).map (fun p => p.2)
  (setBits (some (List.replicate bytes_len 0)) idxs).map (fun bm =>
    ({ db with statuslists := db.statuslists.map (fun r =>
          if r.list_id = l then { r with bitmap := bm } else r) },
     { id := l, encoding := "bitset", data := hexLower bm }))

/-- `INSERT INTO revocations ... ON CONFLICT DO NOTHING`. -/
def insertRevocation (revs : List (String × Nat)) (p : String × Nat) :
    List (String × Nat) :=
  if revs.contains p then revs else revs ++ [p]

/-- `app.storage.revoke`: look up the credential's `(list_id, index)`; raise
404 `"credential not found"` when absent (leaving the state untouched),
otherwise insert the pair into `revocations`. The bitmap is not modified. -/
def revoke (db : DB) (cred_id : String) : Except (Nat × String) Unit × DB :=
  match db.credentials.find? (fun c => c.id = cred_id) with
  | none => (.error (404, "credential not found"), db)
  | some c =>
    (.ok (), { db with revocations :=
        insertRevocation db.revocations (c.status.list_id, c.status.index) })

/-! ### `app.oidc_like`: challenges and presentations -/

/-- A stored challenge record: the JSON `{"aud": ..., "exp": ...}`. -/
structure ChRec where
  aud : String
  exp : Int
deriving DecidableEq

/-- The expiring key-value store (Redis) as a keyed association list. A set
overwrites the binding for its key; records also carry their `exp` so lazy
expiry can be checked against the clock. -/
abbrev ChStore := List (String × ChRec)

/-- `redis.get`. -/
def kvGet (s : ChStore) (k : String) : Option ChRec :=
  (s.find? (fun p => p.1 = k)).map (fun p => p.2)

/-- `redis.setex`: bind `k` to `v`, overwriting any previous binding. -/
def kvSet (s : ChStore) (k : String) (v : ChRec) : ChStore :=
  (k, v) :: s.filter (fun p => p.1 ≠ k)

/-- `redis.delete`. -/
def kvDel (s : ChStore) (k : String) : ChStore :=
  s.filter (fun p => p.1 ≠ k)

/-- The response of `ChallengeManager.issue`. -/
structure Challenge where
  nonce : String
  aud : String
  exp : Int
deriving DecidableEq

/-- `ChallengeManager.issue`: store `{aud, exp = now + 300}` under
`ch:<nonce>`; the random nonce from `os.urandom` is a parameter. -/
def issue (s : ChStore) (aud nonce : String) (now : Int) :
    Challenge × ChStore :=
  ({ nonce := nonce, aud := aud, exp := now + 300 },
   kvSet s ("ch:" ++ nonce) { aud := aud, exp := now + 300 })

/-- `ChallengeManager.validate`: absent record, audience mismatch and lazy
expiry fail without touching the store; success deletes the record. -/
def validate (s : ChStore) (nonce aud : String) (now : Int) :
    (Bool × String) × ChStore :=
  match kvGet s ("ch:" ++ nonce) with
  | none => ((false, "nonce not found"), s)
  | some doc =>
    if doc.aud ≠ aud then ((false, "aud mismatch"), s)
    else if doc.exp < now then ((false, "expired"), s)
    else ((true, "ok"), kvDel s ("ch:" ++ nonce))

/-- A DID document (`app.models.DIDDoc`). -/
structure DIDDoc where
  did : String
  public_sign : String
  public_agree : String
  service_endpoint : String
deriving DecidableEq

/-- The `cred` object inside a presentation payload. -/
structure CredPayload where
  id : String
  issuer : String
  subject : String
  schema : String
  status : CredStatus
  root : String
  order : List String
  proofs : List (List (String × String))
  revealed : List (String × Json)
deriving DecidableEq

/-- The presentation payload assembled by `PresentationBuilder.build`. -/
structure Payload where
  aud : String
  iat : Int
  exp : Int
  nonce : String
  cred : CredPayload
deriving DecidableEq

/-- Modelled from the external `jwcrypto` library (not repository code): a
JWE compact envelope encrypted to the recipient's agreement key, abstracted
by its round-trip property — the box records the recipient DID and carries,
opaquely to anyone without the key, the payload that `jwe_decrypt_for_did`
with the matching key recovers. -/
structure EncBox where
  recipient : String
  payload : Payload
deriving DecidableEq

/-- `app.crypto.jwe_encrypt_for_did`, modelled per `EncBox`. -/
def jwe_encrypt_for_did (payload : Payload) (verifier_doc : DIDDoc) : EncBox :=
  { recipient := verifier_doc.did, payload := payload }

/-- `app.crypto.jwe_decrypt_for_did`, modelled per `EncBox`. -/
def jwe_decrypt_for_did (box : EncBox) : Payload := box.payload

/-- Update a Python dict binding: existing keys keep their position. -/
def dictSet (d : List (String × Json)) (k : String) (v : Json) :
    List (String × Json) :=
  if d.any (fun p => p.1 = k) then
    d.map (fun p => if p.1 = k then (k, v) else p)
  else d ++ [(k, v)]

/-- The dict comprehension
`{key: attrs[key] for key in reveal_fields if key in attrs}`. -/
def revealDict (attrs : List (String × Json)) (fields : List String) :
    List (String × Json) :=
  fields.foldl (fun d k =>
    match lookupAttr attrs k with
    | some v => dictSet d k v
    | none => d) []

/-- `PresentationBuilder.build`: select the revealed attributes, issue a
nonce bound to the verifier DID, assemble the payload and encrypt it to the
verifier. -/
def build (holder_doc verifier_doc : DIDDoc) (credential : Credential)
    (reveal_fields : List String) (s : ChStore) (now : Int) (nonce : String) :
    EncBox × ChStore :=
  let revealed := revealDict credential.attrs reveal_fields
  let (ch, s1) := issue s verifier_doc.did nonce now
  let payload : Payload :=
    { aud := verifier_doc.did, iat := now, exp := now + 300, nonce := ch.nonce,
      cred := { id := credential.id, issuer := credential.issuer,
                subject := credential.subject, schema := credential.schema,
                status := credential.status, root := credential.merkle.root,
                order := credential.merkle.order,
                proofs := credential.merkle.paths, revealed := revealed } }
  (jwe_encrypt_for_did payload verifier_doc, s1)

/-- The success body of `PresentationBuilder.verify_and_extract`. -/
structure VerifyResult where
  ok : Bool
  message : String
  disclosed : List (String × Json)
deriving DecidableEq

/-- `PresentationBuilder.verify_and_extract` on the decrypted payload:
challenge validation (consuming the nonce even when a later check fails),
revocation check, then the stub Merkle check. Errors are `HTTPException`s
as `(status, detail)` pairs; the updated challenge store is returned in
either case. -/
def verify_and_extract (payload : Payload) (s : ChStore) (db : DB)
    (now : Int) : Except (Nat × String) VerifyResult × ChStore :=
  let ((ok, why), s1) := validate s payload.nonce payload.aud now
  if ok = false then (.error (400, "challenge invalid: " ++ why), s1)
  else if is_revoked db payload.cred.status.list_id
      payload.cred.status.index then
    (.error (400, "credential revoked"), s1)
  else if verify_merkle_proofs payload.cred.root payload.cred.order
      payload.cred.proofs payload.cred.revealed = false then
    (.error (400, "merkle proof failed"), s1)
  else
    (.ok { ok := true, message := "verified OK",
           disclosed := payload.cred.revealed }, s1)

/-! ### `app.crypto` / `app.did`: DID derivation -/

/-- `app.crypto.did_from_jwk_public` on the raw public coordinates: prefix
`did:key:z`, then the base64url fingerprint of `x || y` truncated to 46
characters. -/
def did_from_jwk_public (x y : List Nat) : String :=
  "did:key:z" ++ String.mk ((b64url (x ++ y)).data.take 46)

/-- Python's `str.split(":")`. -/
def splitColon : List Char → List (List Char)
  | [] => [[]]
  | c :: rest =>
    if c = ':' then [] :: splitColon rest
    else
      match splitColon rest with
      | [] => [[c]]
      | h :: t => (c :: h) :: t

/-- `s.split(':')[-1]`: the segment after the last colon. -/
def lastSegment (s : String) : String :=
  String.mk ((splitColon s.data).getLastD [])

/-- `app.did.generate_did_key`: derive the DID from the signing key's
coordinates and build the DID document, with
`service_endpoint = "inbox://" + did.split(':')[-1][:8]`. The keypairs are
abstracted to their raw public coordinates and exported `x` strings. -/
def generate_did_key (x y : List Nat) (sign_x agree_x : String) :
    String × DIDDoc :=
  let did := did_from_jwk_public x y
  (did,
   { did := did, public_sign := sign_x, public_agree := agree_x,
     service_endpoint := "inbox://" ++
       String.mk ((lastSegment did).data.take 8) })

theorem sha256_abc :
    sha256 (strBytes "abc") =
      [186, 120, 22, 191, 143, 1, 207, 234, 65, 65, 64, 222, 93, 174, 34, 35,
       176, 3, 97, 163, 150, 23, 122, 156, 180, 16, 255, 97, 242, 0, 21,
       173] := by decide

theorem b64url_test : b64url (strBytes "hi") = "aGk" := by decide

theorem hex_test : hexLower [0, 171] = "00ab" := by decide

-- cross-validation of the serialization model against Python-computed values
theorem modelcheck_dumps1 :
    pyDumps (.obj (JKVs.ofList [("b", .num 1),
      ("a", .arr (JList.ofList [.num 2, .obj (JKVs.ofList [("c", .str "x")])]))])) =
      "\x7b\"a\": [2, \x7b\"c\": \"x\"\x7d], \"b\": 1\x7d" := by decide

theorem modelcheck_dumps2 :
    pyDumps (.obj (JKVs.ofList [("q", .str "h\"i\n\x01é€")])) =
      "\x7b\"q\": \"h\\\"i\\n\\u0001\\u00e9\\u20ac\"\x7d" := by decide

theorem modelcheck_root :
    (merkle_commit [("a", .arr (JList.ofList [.num 1, .num 2]))] ["a"]).map
        (fun r => r.root) =
      some "UaOeNe0Plydy2t022eywFxe51unl3EGyJpwSEsA812E" := by decide

theorem modelcheck_stub :
    stubPath = [("Ng-EA1lCJDxqNlN64vhnNIXmwERVoKhaDbGWkPJUFIA", "L"),
      ("JwQvTm7KfQsqfuQCbfLs-lHTM55tEiqgmRGOzYVjutk", "R")] := by decide

/-! ### Store lemmas -/

theorem kvGet_kvDel_self (s : ChStore) (k : String) :
    kvGet (kvDel s k) k = none := by
  have h : (kvDel s k).find? (fun p => p.1 = k) = none := by
    rw [List.find?_eq_none]
    intro p hp
    have := (List.mem_filter.mp hp).2
    simpa using this
  simp [kvGet, h]

theorem kvGet_kvDel_other (s : ChStore) (k k2 : String) (h : k2 ≠ k) :
    kvGet (kvDel s k) k2 = kvGet s k2 := by
  induction s with
  | nil => rfl
  | cons p tl ih =>
    have hkk : ¬ (k = k2) := fun hh => h hh.symm
    by_cases hp : p.1 = k
    · have hp2 : ¬ p.1 = k2 := by rw [hp]; exact fun hh => h hh.symm
      simpa [kvDel, kvGet, List.filter_cons, List.find?_cons, hp, hp2, h, hkk]
        using ih
    · by_cases hp2 : p.1 = k2
      · simp [kvDel, kvGet, List.filter_cons, List.find?_cons, hp, hp2, h, hkk]
      · simpa [kvDel, kvGet, List.filter_cons, List.find?_cons, hp, hp2, h, hkk]
          using ih

theorem kvGet_kvSet_self (s : ChStore) (k : String) (v : ChRec) :
    kvGet (kvSet s k v) k = some v := by
  simp [kvGet, kvSet, List.find?_cons]

/-! ### Claim theorems -/

/-- C7: for every input tuple `(root, order, paths, revealed)`, the Merkle
proof verifier `verify_merkle_proofs` returns `true`. -/
theorem C7_verify_merkle_proofs_true (root : String) (order : List String)
    (paths : List (List (String × String)))
    (revealed : List (String × Json)) :
    verify_merkle_proofs root order paths revealed = true := rfl

/-- A database holding exactly one credential, at index 0 of its issuer's
status list: the state after a first successful issuance. -/
def dbC1 : DB :=
  { credentials := [{ id := "cred:iss:0", issuer := "iss", subject := "sub",
                      schema := "example:student-id-v1", attrs := [],
                      merkle := { order := [], root := "", paths := [] },
                      status := { list_id := "status:iss", index := 0 },
                      issued_at := 0 }],
    revocations := [],
    statuslists := [{ list_id := "status:iss", issuer := "iss", bitmap := [] }] }

/-- C1: the claim says `allocate` returns 1 + the current maximum index (so
1 here, where the maximum is 0), making indices unique per list. The code
computes `(row[0] or -1) + 1`, and Python's `or` treats the integer 0 as
falsy, so with `MAX(index) = 0` it yields `(-1) + 1 = 0`: `allocate`
re-allocates index 0, which is already in use (and whose credential id
`cred:iss:0` would collide with the existing primary key). -/
theorem C1_allocate_reallocates_index_zero :
    (allocate dbC1 "iss").2.2 = 0 ∧
    maxIndex? dbC1 "status:iss" = some 0 ∧
    dbC1.credentials.any (fun c =>
      c.status.list_id = "status:iss" && c.status.index = 0) = true := by
  refine ⟨by decide, by decide, by decide⟩

/-- C10: revoking a credential id with no row in the credentials table
returns a 404 error with detail "credential not found" and leaves the
database (in particular the revocations table) unchanged. -/
theorem C10_revoke_not_found (db : DB) (cred_id : String)
    (h : ∀ c ∈ db.credentials, c.id ≠ cred_id) :
    revoke db cred_id = (.error (404, "credential not found"), db) := by
  have hf : db.credentials.find? (fun c => c.id = cred_id) = none := by
    rw [List.find?_eq_none]
    intro c hc
    simpa using h c hc
  simp [revoke, hf]

theorem C10_revoke_not_found_witness :
    (∀ c ∈ (⟨[], [], []⟩ : DB).credentials, c.id ≠ "cred:zzz") ∧
    revoke (⟨[], [], []⟩ : DB) "cred:zzz" =
      (.error (404, "credential not found"), (⟨[], [], []⟩ : DB)) :=
  ⟨by decide, C10_revoke_not_found (⟨[], [], []⟩ : DB) "cred:zzz" (by decide)⟩

/-- C3: `validate(nonce, aud)` returns `(false, "nonce not found")` when no
`ch:<nonce>` record exists, `(false, "aud mismatch")` when the stored
audience differs, `(false, "expired")` when the stored `exp` is below the
clock — each failing case leaving the store unchanged — and otherwise
deletes the key and returns `(true, "ok")`. -/
theorem C3_validate_cases (s : ChStore) (nonce aud : String) (now : Int) :
    (kvGet s ("ch:" ++ nonce) = none →
      validate s nonce aud now = ((false, "nonce not found"), s)) ∧
    (∀ r, kvGet s ("ch:" ++ nonce) = some r → r.aud ≠ aud →
      validate s nonce aud now = ((false, "aud mismatch"), s)) ∧
    (∀ r, kvGet s ("ch:" ++ nonce) = some r → r.aud = aud → r.exp < now →
      validate s nonce aud now = ((false, "expired"), s)) ∧
    (∀ r, kvGet s ("ch:" ++ nonce) = some r → r.aud = aud → ¬ r.exp < now →
      validate s nonce aud now = ((true, "ok"), kvDel s ("ch:" ++ nonce)) ∧
        kvGet (kvDel s ("ch:" ++ nonce)) ("ch:" ++ nonce) = none) := by
  refine ⟨fun h => by simp [validate, h], fun r h ha => by simp [validate, h, ha],
    fun r h ha he => by simp [validate, h, ha, he],
    fun r h ha he => ⟨by simp [validate, h, ha, he], kvGet_kvDel_self s _⟩⟩

/-- A store holding one challenge record for nonce "n", audience "v",
expiry 100. -/
def s3w : ChStore := [("ch:n", { aud := "v", exp := 100 })]

theorem C3_validate_cases_witness :
    validate s3w "m" "v" 50 = ((false, "nonce not found"), s3w) ∧
    validate s3w "n" "w" 50 = ((false, "aud mismatch"), s3w) ∧
    validate s3w "n" "v" 200 = ((false, "expired"), s3w) ∧
    validate s3w "n" "v" 50 = ((true, "ok"), kvDel s3w "ch:n") :=
  ⟨(C3_validate_cases s3w "m" "v" 50).1 (by decide),
   (C3_validate_cases s3w "n" "w" 50).2.1 { aud := "v", exp := 100 }
     (by decide) (by decide),
   (C3_validate_cases s3w "n" "v" 200).2.2.1 { aud := "v", exp := 100 }
     (by decide) (by decide) (by decide),
   ((C3_validate_cases s3w "n" "v" 50).2.2.2 { aud := "v", exp := 100 }
     (by decide) (by decide) (by decide)).1⟩

/-- The leaf/root formula exactly as the specification words it: canonical
JSON with sorted keys and no insignificant whitespace. -/
def specRootCanonical (attrs : List (String × Json)) (order : List String) :
    String :=
  b64url (sha256 (List.flatten (order.map (fun k =>
    sha256 (strBytes (k ++ ":" ++ canonicalJson ((lookupAttr attrs k).getD .null)))))))

/-- An attribute mapping with one non-scalar value, `{"a": [1, 2]}`. -/
def attrsC5 : List (String × Json) :=
  [("a", .arr (JList.ofList [.num 1, .num 2]))]

/-- C5 (counterexample): at `attrs = {"a": [1, 2]}`, `order = ["a"]`, the
code hashes the leaf input `a:[1, 2]` — `json.dumps` with its default
separators keeps a space after the comma — while the claim's canonical
JSON (no insignificant whitespace) yields `a:[1,2]`, so the claimed root
differs from the one `merkle_commit` returns. -/
theorem C5_counterexample :
    (merkle_commit attrsC5 ["a"]).map (fun r => r.root) ≠
      some (specRootCanonical attrsC5 ["a"]) := by decide

/-- C5 (amended): for every attribute mapping and order whose keys are all
present, `merkle_commit` returns `order` unchanged, leaves
`L[i] = SHA-256(order[i] + ":" + dumps(attrs[order[i]]))` where `dumps` is
`json.dumps(..., sort_keys=True)` with Python's default separators (keys
sorted ascending, but a space after each comma and colon — coinciding with
canonical JSON on scalar values), and root equal to the unpadded base64url
encoding of `SHA-256(L[0] || L[1] || ...)`. -/
theorem C5_merkle_commit_spec (attrs : List (String × Json))
    (order : List String)
    (h : ∀ k ∈ order, (lookupAttr attrs k).isSome) :
    merkle_commit attrs order =
      some { order := order,
             root := b64url (sha256 (List.flatten (order.map (fun k =>
               sha256 (strBytes (k ++ ":" ++ pyDumps ((lookupAttr attrs k).getD .null))))))),
             paths := order.map (fun _ => stubPath) } := by
  have hm : leavesOf attrs order = some (order.map (fun k =>
      sha256 (strBytes (k ++ ":" ++ pyDumps ((lookupAttr attrs k).getD .null))))) := by
    induction order with
    | nil => rfl
    | cons k tl ih =>
      obtain ⟨v, hv⟩ := Option.isSome_iff_exists.mp (h k (by simp))
      have htl := ih (fun k2 hk2 => h k2 (by simp [hk2]))
      simp [leavesOf, htl, leafHash, hv]
  simp [merkle_commit, hm]

theorem C5_merkle_commit_spec_witness :
    (∀ k ∈ (["a"] : List String), (lookupAttr [("a", Json.num 1)] k).isSome) ∧
    merkle_commit [("a", Json.num 1)] ["a"] =
      some { order := ["a"],
             root := b64url (sha256 (List.flatten ((["a"] : List String).map (fun k =>
               sha256 (strBytes (k ++ ":" ++ pyDumps ((lookupAttr [("a", Json.num 1)] k).getD .null))))))),
             paths := (["a"] : List String).map (fun _ => stubPath) } :=
  ⟨by decide, C5_merkle_commit_spec [("a", Json.num 1)] ["a"] (by decide)⟩

/-! ### C4: the single-use nonce property -/

/-- One validate request: nonce, audience, and clock reading. -/
abbrev VCall := String × String × Int

/-- The (call, result) trace of a sequence of validate calls threaded
through the store. -/
def vtrace (s : ChStore) : List VCall → List (VCall × (Bool × String))
  | [] => []
  | c :: cs =>
    (c, (validate s c.1 c.2.1 c.2.2).1) ::
      vtrace (validate s c.1 c.2.1 c.2.2).2 cs

theorem validate_absent (s : ChStore) (n a : String) (t : Int)
    (h : kvGet s ("ch:" ++ n) = none) :
    validate s n a t = ((false, "nonce not found"), s) := by
  simp [validate, h]

theorem kvGet_kvDel_none (s : ChStore) (k key : String)
    (h : kvGet s key = none) : kvGet (kvDel s k) key = none := by
  by_cases hk : key = k
  · subst hk; exact kvGet_kvDel_self s key
  · rw [kvGet_kvDel_other s k key hk]; exact h

theorem validate_preserves_absent (s : ChStore) (c : VCall) (key : String)
    (h : kvGet s key = none) :
    kvGet (validate s c.1 c.2.1 c.2.2).2 key = none := by
  unfold validate
  cases hg : kvGet s ("ch:" ++ c.1) with
  | none => simpa using h
  | some doc =>
    by_cases h1 : doc.aud ≠ c.2.1
    · simpa [h1] using h
    · by_cases h2 : doc.exp < c.2.2
      · simpa [h1, h2] using h
      · simpa [h1, h2] using kvGet_kvDel_none s _ key h

theorem validate_true_state (s : ChStore) (n a : String) (t : Int)
    (h : ((validate s n a t).1).1 = true) :
    (validate s n a t).2 = kvDel s ("ch:" ++ n) := by
  unfold validate at h ⊢
  cases hg : kvGet s ("ch:" ++ n) with
  | none => simp [hg] at h
  | some doc =>
    simp only [hg] at h ⊢
    split_ifs at h ⊢ with h1 h2
    all_goals simp_all

theorem vtrace_dead (s : ChStore) (n : String) (calls : List VCall)
    (h : kvGet s ("ch:" ++ n) = none) :
    ∀ q ∈ vtrace s calls, q.1.1 = n → q.2 = (false, "nonce not found") := by
  induction calls generalizing s with
  | nil => intro q hq; simp [vtrace] at hq
  | cons c cs ih =>
    intro q hq hn
    simp only [vtrace, List.mem_cons] at hq
    rcases hq with hq | hq
    · subst hq
      simp only at hn
      have habs : kvGet s ("ch:" ++ c.1) = none := by rw [hn]; exact h
      simp [validate_absent s c.1 c.2.1 c.2.2 habs]
    · exact ih (validate s c.1 c.2.1 c.2.2).2
        (validate_preserves_absent s c _ h) q hq hn

theorem vtrace_dead_count (s : ChStore) (n : String) (calls : List VCall)
    (h : kvGet s ("ch:" ++ n) = none) :
    (vtrace s calls).countP (fun p => p.1.1 = n && p.2.1) = 0 := by
  rw [List.countP_eq_zero]
  intro q hq
  by_cases hn : q.1.1 = n
  · have := vtrace_dead s n calls h q hq hn
    simp [hn, this]
  · simp [hn]

theorem vtrace_true_count (s : ChStore) (n : String) (calls : List VCall) :
    (vtrace s calls).countP (fun p => p.1.1 = n && p.2.1) ≤ 1 := by
  induction calls generalizing s with
  | nil => simp [vtrace]
  | cons c cs ih =>
    simp only [vtrace, List.countP_cons]
    by_cases hpred : c.1 = n ∧ ((validate s c.1 c.2.1 c.2.2).1).1 = true
    · have hdead : kvGet (validate s c.1 c.2.1 c.2.2).2 ("ch:" ++ n) = none := by
        rw [validate_true_state s c.1 c.2.1 c.2.2 hpred.2, ← hpred.1]
        exact kvGet_kvDel_self s ("ch:" ++ c.1)
      have hz := vtrace_dead_count (validate s c.1 c.2.1 c.2.2).2 n cs hdead
      rw [hz]
      split_ifs <;> omega
    · have hle := ih (validate s c.1 c.2.1 c.2.2).2
      have hz : (if (decide (c.1 = n) && ((validate s c.1 c.2.1 c.2.2).1).1) = true
          then 1 else 0) = 0 := by
        rw [if_neg]
        intro hcontra
        simp only [Bool.and_eq_true, decide_eq_true_eq] at hcontra
        exact hpred hcontra
      omega

theorem vtrace_after_success (s : ChStore) (n : String) (calls : List VCall) :
    ∀ t1 p t2, vtrace s calls = t1 ++ p :: t2 → p.1.1 = n → p.2.1 = true →
      ∀ q ∈ t2, q.1.1 = n → q.2 = (false, "nonce not found") := by
  induction calls generalizing s with
  | nil =>
    intro t1 p t2 heq
    exact absurd heq (by simp [vtrace])
  | cons c cs ih =>
    intro t1 p t2 heq hn htrue q hq hqn
    cases t1 with
    | nil =>
      simp only [vtrace, List.nil_append, List.cons.injEq] at heq
      obtain ⟨hp, ht2⟩ := heq
      have hres : ((validate s c.1 c.2.1 c.2.2).1).1 = true := by
        rw [← hp] at htrue; exact htrue
      have hcn : c.1 = n := by rw [← hp] at hn; exact hn
      have hdead : kvGet (validate s c.1 c.2.1 c.2.2).2 ("ch:" ++ n) = none := by
        rw [validate_true_state s c.1 c.2.1 c.2.2 hres, ← hcn]
        exact kvGet_kvDel_self s ("ch:" ++ c.1)
      rw [← ht2] at hq
      exact vtrace_dead (validate s c.1 c.2.1 c.2.2).2 n cs hdead q hq hqn
    | cons e t1r =>
      simp only [vtrace, List.cons_append, List.cons.injEq] at heq
      exact ih (validate s c.1 c.2.1 c.2.2).2 t1r p t2 heq.2 hn htrue q hq hqn

/-- C4: starting from any store into which `issue` has just placed a nonce,
over any sequence of validate calls at most one call for that nonce returns
`(true, _)`, and every call for that nonce made after the successful one
returns `(false, "nonce not found")`. -/
theorem C4_single_use_nonce (s0 : ChStore) (aud nonce : String) (t : Int)
    (calls : List VCall) :
    ((vtrace (issue s0 aud nonce t).2 calls).countP
        (fun p => p.1.1 = nonce && p.2.1) ≤ 1) ∧
    (∀ t1 p t2, vtrace (issue s0 aud nonce t).2 calls = t1 ++ p :: t2 →
      p.1.1 = nonce → p.2.1 = true →
      ∀ q ∈ t2, q.1.1 = nonce → q.2 = (false, "nonce not found")) :=
  ⟨vtrace_true_count _ nonce calls, vtrace_after_success _ nonce calls⟩

theorem C4_single_use_nonce_witness :
    ((vtrace (issue [] "v" "n" 0).2 [("n", "v", 10), ("n", "v", 20)]).countP
        (fun p => p.1.1 = "n" && p.2.1) ≤ 1) ∧
    ((("n", "v", 20), (false, "nonce not found")) : VCall × (Bool × String)).2 =
      (false, "nonce not found") :=
  ⟨(C4_single_use_nonce [] "v" "n" 0 [("n", "v", 10), ("n", "v", 20)]).1,
   (C4_single_use_nonce [] "v" "n" 0 [("n", "v", 10), ("n", "v", 20)]).2
     [] (("n", "v", 10), (true, "ok"))
     [(("n", "v", 20), (false, "nonce not found"))]
     (by decide) (by decide) (by decide)
     (("n", "v", 20), (false, "nonce not found")) (by decide) (by decide)⟩

/-! ### C9: DID derivation and the service endpoint -/

theorem char_ofNat_toNat_valid (n : Nat) (h : n < 55296) :
    (Char.ofNat n).toNat = n := by
  have hv : Nat.isValidChar n := Or.inl h
  simp [Char.ofNat, hv, Char.toNat, Char.ofNatAux, UInt32.toNat,
    BitVec.toNat_ofNatLt]

theorem b64c_ne_colon (v : Nat) : b64c v ≠ ':' := by
  intro hEq
  have h2 := congrArg Char.toNat hEq
  have hcolon : (':' : Char).toNat = 58 := by decide
  rw [hcolon] at h2
  unfold b64c at h2
  split_ifs at h2 with h1 ha hb hc
  · rw [char_ofNat_toNat_valid (65 + v) (by omega)] at h2; omega
  · rw [char_ofNat_toNat_valid (97 + v - 26) (by omega)] at h2; omega
  · rw [char_ofNat_toNat_valid (48 + v - 52) (by omega)] at h2; omega
  · rw [char_ofNat_toNat_valid 45 (by omega)] at h2; omega
  · rw [char_ofNat_toNat_valid 95 (by omega)] at h2; omega

theorem mem_b64chunks : ∀ (bs : List Nat), ∀ c ∈ b64chunks bs, ∃ v, c = b64c v
  | a :: b :: c2 :: rest => by
    intro ch hch
    simp only [b64chunks, List.mem_cons] at hch
    rcases hch with h | h | h | h | h
    · exact ⟨_, h⟩
    · exact ⟨_, h⟩
    · exact ⟨_, h⟩
    · exact ⟨_, h⟩
    · exact mem_b64chunks rest ch h
  | [a, b] => by
    intro ch hch
    simp only [b64chunks, List.mem_cons] at hch
    rcases hch with h | h | h
    · exact ⟨_, h⟩
    · exact ⟨_, h⟩
    · exact ⟨_, by simpa using h⟩
  | [a] => by
    intro ch hch
    simp only [b64chunks, List.mem_cons] at hch
    rcases hch with h | h
    · exact ⟨_, h⟩
    · exact ⟨_, by simpa using h⟩
  | [] => by intro ch hch; simp [b64chunks] at hch

theorem b64url_no_colon (bs : List Nat) : ':' ∉ (b64url bs).data := by
  intro hmem
  obtain ⟨v, hv⟩ := mem_b64chunks bs ':' hmem
  exact b64c_ne_colon v hv.symm

theorem splitColon_ne_nil (l : List Char) : splitColon l ≠ [] := by
  cases l with
  | nil => simp [splitColon]
  | cons c rest =>
    simp only [splitColon]
    split_ifs
    · simp
    · split <;> simp

theorem splitColon_no_colon (l : List Char) (h : ':' ∉ l) :
    splitColon l = [l] := by
  induction l with
  | nil => rfl
  | cons c rest ih =>
    have hc : ¬ c = ':' := fun hh => h (by simp [hh])
    have hrest : ':' ∉ rest := fun hh => h (by simp [hh])
    simp only [splitColon, if_neg hc, ih hrest]

theorem splitColon_length_ge_two (l : List Char) (h : ':' ∈ l) :
    2 ≤ (splitColon l).length := by
  induction l with
  | nil => simp at h
  | cons c rest ih =>
    by_cases hc : c = ':'
    · simp only [splitColon, if_pos hc, List.length_cons]
      have h1 : 0 < (splitColon rest).length :=
        List.length_pos.mpr (splitColon_ne_nil rest)
      omega
    · have hrest : ':' ∈ rest := by
        rcases List.mem_cons.mp h with h1 | h1
        · exact absurd h1.symm hc
        · exact h1
      simp only [splitColon, if_neg hc]
      cases hsp : splitColon rest with
      | nil => exact absurd hsp (splitColon_ne_nil rest)
      | cons hd tl =>
        have h2 := ih hrest
        rw [hsp] at h2
        simpa using h2

theorem getLastD_irrel {α : Type} (l : List α) (x y : α) (h : l ≠ []) :
    l.getLastD x = l.getLastD y := by
  cases l with
  | nil => exact absurd rfl h
  | cons a t => rw [List.getLastD_cons, List.getLastD_cons]

theorem splitColon_cons_colon (l : List Char) :
    splitColon (':' :: l) = [] :: splitColon l := by
  simp [splitColon]

theorem splitColon_cons_other (c : Char) (l : List Char) (hc : ¬ c = ':') :
    splitColon (c :: l) =
      match splitColon l with
      | [] => [[c]]
      | h :: t => (c :: h) :: t := by
  simp [splitColon, hc]

theorem splitColon_append_colon (xs ys : List Char) :
    (splitColon (xs ++ ':' :: ys)).getLastD [] =
      (splitColon ys).getLastD [] := by
  induction xs with
  | nil =>
    rw [List.nil_append, splitColon_cons_colon, List.getLastD_cons]
  | cons c xs ih =>
    rw [List.cons_append]
    by_cases hc : c = ':'
    · subst hc
      rw [splitColon_cons_colon, List.getLastD_cons]
      exact ih
    · rw [splitColon_cons_other c _ hc]
      cases hsp : splitColon (xs ++ ':' :: ys) with
      | nil => exact absurd hsp (splitColon_ne_nil _)
      | cons hd tl =>
        have hlen := splitColon_length_ge_two (xs ++ ':' :: ys) (by simp)
        rw [hsp] at hlen
        cases tl with
        | nil => simp at hlen
        | cons t1 tr =>
          show ((c :: hd) :: t1 :: tr).getLastD [] = (splitColon ys).getLastD []
          rw [List.getLastD_cons]
          have h3 := ih
          rw [hsp, List.getLastD_cons] at h3
          rw [getLastD_irrel (t1 :: tr) (c :: hd) hd (by simp)]
          exact h3

theorem lastSegment_did (fp46 : List Char) (h : ':' ∉ fp46) :
    lastSegment ("did:key:z" ++ String.mk fp46) = String.mk ('z' :: fp46) := by
  unfold lastSegment
  show String.mk ((splitColon (['d', 'i', 'd'] ++ ':' ::
    (['k', 'e', 'y'] ++ ':' :: ('z' :: fp46)))).getLastD []) =
    String.mk ('z' :: fp46)
  rw [splitColon_append_colon, splitColon_append_colon]
  rw [splitColon_no_colon ('z' :: fp46) (by
    intro hm
    rcases List.mem_cons.mp hm with h1 | h1
    · exact absurd h1 (by decide)
    · exact h h1)]
  rfl

/-- C9 (counterexample): with all-zero 32-byte coordinates the fingerprint
begins "AAAAAAAA", but the generated service endpoint is "inbox://zAAAAAAA":
the code takes `did.split(':')[-1][:8]`, whose first character is the
literal "z" of the `did:key:z` prefix, not the fingerprint's first 8
characters as the claim states. -/
theorem C9_counterexample :
    (generate_did_key (List.replicate 32 0) (List.replicate 32 0)
        "sx" "ax").2.service_endpoint ≠
      "inbox://" ++ String.mk ((b64url (List.replicate 32 0 ++
        List.replicate 32 0)).data.take 8) := by decide

/-- C9 (amended): for 32-byte coordinates X and Y, the generated DID is
`did:key:z` followed by the base64url (no padding) fingerprint of the
64-byte concatenation X || Y truncated to 46 characters, and the DID
document's service endpoint is `inbox://` followed by the first 8
characters of the DID's method-specific identifier — the literal `z` plus
the first 7 characters of the fingerprint. -/
theorem C9_generate_did_key_spec (x y : List Nat) (sx ax : String)
    (hx : x.length = 32) (hy : y.length = 32) :
    (generate_did_key x y sx ax).1 =
      "did:key:z" ++ String.mk ((b64url (x ++ y)).data.take 46) ∧
    (generate_did_key x y sx ax).2.did = (generate_did_key x y sx ax).1 ∧
    (generate_did_key x y sx ax).2.service_endpoint =
      "inbox://" ++ String.mk (('z' :: (b64url (x ++ y)).data.take 46).take 8) := by
  refine ⟨rfl, rfl, ?_⟩
  show "inbox://" ++ String.mk ((lastSegment (did_from_jwk_public x y)).data.take 8) = _
  have hnc : ':' ∉ (b64url (x ++ y)).data.take 46 := by
    intro hm
    exact b64url_no_colon (x ++ y) (List.mem_of_mem_take hm)
  rw [show did_from_jwk_public x y =
        "did:key:z" ++ String.mk ((b64url (x ++ y)).data.take 46) from rfl,
    lastSegment_did _ hnc]

theorem C9_generate_did_key_spec_witness :
    ((List.replicate 32 0 : List Nat).length = 32) ∧
    ((generate_did_key (List.replicate 32 0) (List.replicate 32 0)
        "sx" "ax").1 =
      "did:key:z" ++ String.mk ((b64url (List.replicate 32 0 ++
        List.replicate 32 0)).data.take 46) ∧
    (generate_did_key (List.replicate 32 0) (List.replicate 32 0)
        "sx" "ax").2.did =
      (generate_did_key (List.replicate 32 0) (List.replicate 32 0)
        "sx" "ax").1 ∧
    (generate_did_key (List.replicate 32 0) (List.replicate 32 0)
        "sx" "ax").2.service_endpoint =
      "inbox://" ++ String.mk (('z' :: (b64url (List.replicate 32 0 ++
        List.replicate 32 0)).data.take 46).take 8)) :=
  ⟨by decide, C9_generate_did_key_spec (List.replicate 32 0)
    (List.replicate 32 0) "sx" "ax" (by decide) (by decide)⟩

/-! ### C8: the published bitmap -/

/-- Bit `i` of a little-endian bit-packed bitmap: byte `i / 8`, position
`i % 8`; false when out of range. -/
def getBitL (bm : List Nat) (i : Nat) : Bool :=
  if i / 8 < bm.length then ((bm.getD (i / 8) 0) &&& (1 <<< (i % 8))) != 0
  else false

theorem and_shift_ne (x k : Nat) : ((x &&& (1 <<< k)) != 0) = x.testBit k := by
  rw [Nat.one_shiftLeft, Nat.and_two_pow]
  cases h : x.testBit k with
  | true => simp [(Nat.two_pow_pos k).ne']
  | false => simp

theorem getBitL_set (bm : List Nat) (j i : Nat) (hj : j / 8 < bm.length) :
    getBitL (bm.set (j / 8) ((bm.getD (j / 8) 0) ||| (1 <<< (j % 8)))) i =
      (getBitL bm i || (i == j)) := by
  unfold getBitL
  rw [List.length_set]
  by_cases hi : i / 8 < bm.length
  · rw [if_pos hi, if_pos hi]
    by_cases hbyte : i / 8 = j / 8
    · have hset : (bm.set (j / 8) ((bm.getD (j / 8) 0) ||| (1 <<< (j % 8)))).getD
          (i / 8) 0 = (bm.getD (j / 8) 0) ||| (1 <<< (j % 8)) := by
        rw [hbyte]
        simp [List.getD, List.getElem?_set_eq_of_lt _ hj]
      rw [hset, and_shift_ne, and_shift_ne, Nat.testBit_lor, Nat.one_shiftLeft]
      by_cases hbit : i % 8 = j % 8
      · have hij : i = j := by omega
        rw [hbit, Nat.testBit_two_pow_self]
        simp [hij]
      · have hne : j % 8 ≠ i % 8 := fun hh => hbit hh.symm
        have hij : i ≠ j := by omega
        rw [Nat.testBit_two_pow_of_ne hne]
        simp [hij, hbyte]
    · have hset : (bm.set (j / 8) ((bm.getD (j / 8) 0) ||| (1 <<< (j % 8)))).getD
          (i / 8) 0 = bm.getD (i / 8) 0 := by
        simp [List.getD, List.getElem?_set_ne (fun hh => hbyte hh.symm)]
      have hij : i ≠ j := by omega
      rw [hset]
      simp [hij]
  · rw [if_neg hi, if_neg hi]
    have hij : i ≠ j := by omega
    simp [hij]

theorem setBitO_some (bm : List Nat) (j : Nat) (hj : j / 8 < bm.length) :
    setBitO bm j =
      some (bm.set (j / 8) ((bm.getD (j / 8) 0) ||| (1 <<< (j % 8)))) := by
  simp [setBitO, hj]

theorem setBits_spec (idxs : List Nat) (bm : List Nat)
    (h : ∀ j ∈ idxs, j / 8 < bm.length) :
    ∃ bm2, setBits (some bm) idxs = some bm2 ∧ bm2.length = bm.length ∧
      ∀ i, getBitL bm2 i = (getBitL bm i || idxs.contains i) := by
  induction idxs generalizing bm with
  | nil => exact ⟨bm, rfl, rfl, by simp [List.contains]⟩
  | cons j rest ih =>
    have hj := h j (by simp)
    have hlen1 : (bm.set (j / 8) ((bm.getD (j / 8) 0) |||
        (1 <<< (j % 8)))).length = bm.length := by simp
    have hrest : ∀ j2 ∈ rest, j2 / 8 <
        (bm.set (j / 8) ((bm.getD (j / 8) 0) ||| (1 <<< (j % 8)))).length := by
      intro j2 hj2
      rw [hlen1]
      exact h j2 (by simp [hj2])
    obtain ⟨bm2, hs, hl, hbits⟩ := ih _ hrest
    have hstep : setBits (some bm) (j :: rest) =
        setBits (some (bm.set (j / 8) ((bm.getD (j / 8) 0) |||
          (1 <<< (j % 8))))) rest := by
      simp [setBits, List.foldl_cons, setBitO_some bm j hj]
    refine ⟨bm2, by rw [hstep]; exact hs, by rw [hl, hlen1], ?_⟩
    intro i
    rw [hbits i, getBitL_set bm j i hj, List.contains_cons, Bool.or_assoc]

theorem getBitL_replicate_zero (n i : Nat) :
    getBitL (List.replicate n 0) i = false := by
  unfold getBitL
  split_ifs with h
  · have hz : (List.replicate n 0).getD (i / 8) 0 = 0 := by
      rw [List.length_replicate] at h
      simp [List.getD, List.getElem?_replicate, h]
    simp [hz]
  · rfl

theorem contains_revoked_idxs (revs : List (String × Nat)) (l : String)
    (i : Nat) :
    ((revs.filter (fun p => p.1 = l)).map (fun p => p.2)).contains i = true ↔
      (l, i) ∈ revs := by
  rw [List.contains_iff_exists_mem_beq]
  constructor
  · rintro ⟨a, ha, hbeq⟩
    obtain ⟨p, hp, hpi⟩ := List.mem_map.mp ha
    obtain ⟨hpm, hpl⟩ := List.mem_filter.mp hp
    have h1 : p.1 = l := by simpa using hpl
    have h2 : p.2 = i := by rw [hpi]; exact (eq_of_beq hbeq).symm
    have : p = (l, i) := by
      cases p
      simp only at h1 h2
      rw [h1, h2]
    rwa [this] at hpm
  · intro hmem
    exact ⟨i, List.mem_map.mpr ⟨(l, i), List.mem_filter.mpr
      ⟨hmem, by simp⟩, rfl⟩, by simp⟩

/-- C8 (counterexample): for a status list with no credentials, the claim
says the bitmap has size 0 (empty hex data); the code reads
`COALESCE(MAX(index), 0) = 0`, so `size = 1` and `publish` returns one zero
byte, hex `"00"`. -/
def dbC8 : DB :=
  { credentials := [], revocations := [],
    statuslists := [{ list_id := "status:e", issuer := "e", bitmap := [] }] }

theorem C8_counterexample :
    maxIndex? dbC8 "status:e" = none ∧
    (publish dbC8 "status:e").map (fun r => r.2.data) = some "00" ∧
    some "00" ≠ some ("" : String) := by
  refine ⟨by decide, by decide, by decide⟩

/-- The behavior of `publish` on a state whose revocation indices are
bounded by the maximal credential index of the list. -/
theorem publish_spec_aux (db : DB) (l : String)
    (hb : ∀ p ∈ db.revocations, p.1 = l → p.2 ≤ coalesceMax0 db l) :
    ∃ bm db2,
      publish db l = some (db2,
        { id := l, encoding := "bitset", data := hexLower bm }) ∧
      bm.length = (coalesceMax0 db l + 1 + 7) / 8 ∧
      (∀ i, getBitL bm i = true ↔ (l, i) ∈ db.revocations) ∧
      db2.credentials = db.credentials ∧
      db2.revocations = db.revocations ∧
      db2.statuslists = db.statuslists.map (fun r =>
        if r.list_id = l then { r with bitmap := bm } else r) := by
  have hbound : ∀ j ∈ (db.revocations.filter (fun p => p.1 = l)).map
      (fun p => p.2),
      j / 8 < (List.replicate ((coalesceMax0 db l + 1 + 7) / 8) 0).length := by
    intro j hj
    obtain ⟨p, hp, hpj⟩ := List.mem_map.mp hj
    obtain ⟨hpm, hpl⟩ := List.mem_filter.mp hp
    have hple := hb p hpm (by simpa using hpl)
    rw [List.length_replicate, ← hpj]
    omega
  obtain ⟨bm, hs, hl, hbits⟩ := setBits_spec _ _ hbound
  refine ⟨bm,
    { credentials := db.credentials, revocations := db.revocations,
      statuslists := db.statuslists.map (fun r =>
        if r.list_id = l then { r with bitmap := bm } else r) },
    ?_, by rw [hl, List.length_replicate], ?_, rfl, rfl, rfl⟩
  · simp only [publish]
    rw [hs]
    rfl
  · intro i
    rw [hbits i, getBitL_replicate_zero, Bool.false_or]
    exact contains_revoked_idxs db.revocations l i

/-- C8 (amended): for every list whose recorded revocation indices are
bounded by `mx = COALESCE(MAX(index), 0)` (true of every reachable state,
where revocations come from allocated credential indices), `publish`
returns a bitmap of `ceil((mx + 1) / 8)` bytes — a single zero byte when
the list has no credentials, rather than the claimed size 0 — whose bit `i`
is set if and only if `(list_id, i)` is in the revocations table; its
lower-case hex encoding is the `data` field, and the bitmap is written back
to the matching statuslists rows. -/
theorem C8_publish_spec (db : DB) (l : String)
    (hb : ∀ p ∈ db.revocations, p.1 = l → p.2 ≤ coalesceMax0 db l) :
    ∃ bm db2,
      publish db l = some (db2,
        { id := l, encoding := "bitset", data := hexLower bm }) ∧
      bm.length = (coalesceMax0 db l + 1 + 7) / 8 ∧
      (∀ i, getBitL bm i = true ↔ (l, i) ∈ db.revocations) ∧
      db2.credentials = db.credentials ∧
      db2.revocations = db.revocations ∧
      db2.statuslists = db.statuslists.map (fun r =>
        if r.list_id = l then { r with bitmap := bm } else r) :=
  publish_spec_aux db l hb

/-- A state with three credentials at indices 0, 1, 2 and one revocation. -/
def dbC8w : DB :=
  { credentials := [
      { id := "cred:i:0", issuer := "i", subject := "s",
        schema := "example:student-id-v1", attrs := [],
        merkle := { order := [], root := "", paths := [] },
        status := { list_id := "status:i", index := 0 }, issued_at := 0 },
      { id := "cred:i:1", issuer := "i", subject := "s",
        schema := "example:student-id-v1", attrs := [],
        merkle := { order := [], root := "", paths := [] },
        status := { list_id := "status:i", index := 1 }, issued_at := 0 },
      { id := "cred:i:2", issuer := "i", subject := "s",
        schema := "example:student-id-v1", attrs := [],
        merkle := { order := [], root := "", paths := [] },
        status := { list_id := "status:i", index := 2 }, issued_at := 0 }],
    revocations := [("status:i", 1)],
    statuslists := [{ list_id := "status:i", issuer := "i", bitmap := [] }] }

theorem C8_publish_spec_witness :
    (∀ p ∈ dbC8w.revocations, p.1 = "status:i" →
      p.2 ≤ coalesceMax0 dbC8w "status:i") ∧
    (∃ bm db2,
      publish dbC8w "status:i" = some (db2,
        { id := "status:i", encoding := "bitset", data := hexLower bm }) ∧
      bm.length = (coalesceMax0 dbC8w "status:i" + 1 + 7) / 8 ∧
      (∀ i, getBitL bm i = true ↔ ("status:i", i) ∈ dbC8w.revocations) ∧
      db2.credentials = dbC8w.credentials ∧
      db2.revocations = dbC8w.revocations ∧
      db2.statuslists = dbC8w.statuslists.map (fun r =>
        if r.list_id = "status:i" then { r with bitmap := bm } else r)) :=
  ⟨by decide, C8_publish_spec dbC8w "status:i" (by decide)⟩

/-! ### C2: revoke and the stored bitmap -/

theorem is_revoked_find (db : DB) (l : String) (i : Nat) :
    is_revoked db l i =
      match db.statuslists.find? (fun r => r.list_id = l) with
      | none => false
      | some row => getBitL row.bitmap i := by
  unfold is_revoked
  cases db.statuslists.find? (fun r => r.list_id = l) with
  | none => rfl
  | some row =>
    show (if i / 8 ≥ row.bitmap.length then false
        else ((row.bitmap.getD (i / 8) 0) &&& (1 <<< (i % 8))) != 0) =
      getBitL row.bitmap i
    unfold getBitL
    by_cases h : i / 8 < row.bitmap.length
    · rw [if_neg (by omega), if_pos h]
    · rw [if_pos (by omega), if_neg h]

theorem le_foldl_max (tl : List Nat) : ∀ x, x ≤ tl.foldl max x := by
  induction tl with
  | nil => intro x; exact le_refl x
  | cons y tl ih =>
    intro x
    rw [List.foldl_cons]
    exact le_trans (le_max_left x y) (ih (max x y))

theorem mem_le_foldl_max (tl : List Nat) :
    ∀ x a, a ∈ x :: tl → a ≤ tl.foldl max x := by
  induction tl with
  | nil =>
    intro x a ha
    simp only [List.mem_singleton] at ha
    simp [ha]
  | cons y tl ih =>
    intro x a ha
    rw [List.foldl_cons]
    rcases List.mem_cons.mp ha with h1 | h1
    · subst h1
      exact le_trans (le_max_left a y) (le_foldl_max tl (max a y))
    · rcases List.mem_cons.mp h1 with h2 | h2
      · subst h2
        exact le_trans (le_max_right x a) (le_foldl_max tl (max x a))
      · exact ih (max x y) a (List.mem_cons.mpr (Or.inr h2))

theorem le_maxIndex? (db : DB) (c : Credential) (hc : c ∈ db.credentials) :
    ∃ m, maxIndex? db c.status.list_id = some m ∧ c.status.index ≤ m := by
  have hmem : c.status.index ∈ (db.credentials.filter (fun cr =>
      cr.status.list_id = c.status.list_id)).map (fun cr => cr.status.index) :=
    List.mem_map.mpr ⟨c, List.mem_filter.mpr ⟨hc, by simp⟩, rfl⟩
  unfold maxIndex?
  cases hl : (db.credentials.filter (fun cr =>
      cr.status.list_id = c.status.list_id)).map (fun cr => cr.status.index) with
  | nil =>
    rw [hl] at hmem
    simp at hmem
  | cons x tl =>
    rw [hl] at hmem
    exact ⟨tl.foldl max x, rfl, mem_le_foldl_max tl x _ hmem⟩

theorem index_le_max (db : DB) (c : Credential) (hc : c ∈ db.credentials) :
    c.status.index ≤ coalesceMax0 db c.status.list_id := by
  obtain ⟨m, hm, hle⟩ := le_maxIndex? db c hc
  unfold coalesceMax0
  rw [hm]
  exact hle

theorem mem_insertRevocation (revs : List (String × Nat)) (p : String × Nat) :
    p ∈ insertRevocation revs p := by
  unfold insertRevocation
  split_ifs with h
  · have := List.contains_iff_exists_mem_beq.mp h
    obtain ⟨a, ha, hbeq⟩ := this
    rwa [eq_of_beq hbeq]
  · simp

theorem mem_insertRevocation_iff (revs : List (String × Nat))
    (p q : String × Nat) :
    q ∈ insertRevocation revs p ↔ (q ∈ revs ∨ q = p) := by
  unfold insertRevocation
  split_ifs with h
  · constructor
    · exact fun hq => Or.inl hq
    · rintro (hq | hq)
      · exact hq
      · subst hq
        obtain ⟨a, ha, hbeq⟩ := List.contains_iff_exists_mem_beq.mp h
        rwa [eq_of_beq hbeq]
  · simp

theorem find?_update_bitmap (rows : List StatusListRow) (l : String)
    (bm : List Nat) :
    (rows.map (fun r => if r.list_id = l then { r with bitmap := bm }
        else r)).find? (fun r => r.list_id = l) =
      (rows.find? (fun r => r.list_id = l)).map
        (fun r => { r with bitmap := bm }) := by
  induction rows with
  | nil => rfl
  | cons r rows ih =>
    by_cases hr : r.list_id = l
    · simp [List.find?_cons, hr]
    · simp [List.find?_cons, hr, ih]

/-- C2 (amended): for a stored credential with status `(list_id, index)`,
`revoke(cred_id)` inserts `(list_id, index)` into the revocations table
(idempotently) but does not modify the stored bitmap, so immediately after
the call `is_revoked(list_id, index)` returns the same value as before; the
revocation becomes visible to `is_revoked` only after a subsequent
`publish(list_id)` (stated here for states whose revocation indices are
bounded by the list's maximal credential index and whose status-list row
exists, as in every reachable state). -/
theorem C2_revoke_spec (db : DB) (cred_id : String) (c : Credential)
    (hc : db.credentials.find? (fun cr => cr.id = cred_id) = some c)
    (hrow : (db.statuslists.find? (fun r =>
      r.list_id = c.status.list_id)).isSome)
    (hb : ∀ p ∈ db.revocations, p.1 = c.status.list_id →
      p.2 ≤ coalesceMax0 db c.status.list_id) :
    ∃ db2, revoke db cred_id = (.ok (), db2) ∧
      (c.status.list_id, c.status.index) ∈ db2.revocations ∧
      db2.statuslists = db.statuslists ∧
      db2.credentials = db.credentials ∧
      (∀ l i, is_revoked db2 l i = is_revoked db l i) ∧
      (∀ db3 res, publish db2 c.status.list_id = some (db3, res) →
        is_revoked db3 c.status.list_id c.status.index = true) := by
  have hmemc : c ∈ db.credentials := List.mem_of_find?_eq_some hc
  refine ⟨⟨db.credentials, insertRevocation db.revocations
      (c.status.list_id, c.status.index), db.statuslists⟩,
    by simp [revoke, hc], mem_insertRevocation _ _, rfl, rfl,
    fun l i => rfl, ?_⟩
  intro db3 res hpub
  have hb2 : ∀ p ∈ insertRevocation db.revocations
      (c.status.list_id, c.status.index), p.1 = c.status.list_id →
      p.2 ≤ coalesceMax0 db c.status.list_id := by
    intro p hp hpl
    rcases (mem_insertRevocation_iff _ _ _).mp hp with hold | hnew
    · exact hb p hold hpl
    · subst hnew
      exact index_le_max db c hmemc
  obtain ⟨bm, db2e, hpub2, hlen, hbits, _, _, hsl⟩ :=
    publish_spec_aux ⟨db.credentials, insertRevocation db.revocations
      (c.status.list_id, c.status.index), db.statuslists⟩ c.status.list_id hb2
  rw [hpub] at hpub2
  have hdb3 : db3 = db2e := congrArg Prod.fst (Option.some.inj hpub2)
  subst hdb3
  rw [is_revoked_find]
  obtain ⟨row, hfind⟩ := Option.isSome_iff_exists.mp hrow
  have hupd : db3.statuslists.find? (fun r =>
      r.list_id = c.status.list_id) = some { row with bitmap := bm } := by
    rw [hsl, find?_update_bitmap, hfind]
    rfl
  rw [hupd]
  exact (hbits c.status.index).mpr (mem_insertRevocation _ _)

/-- The credential at index 0 of issuer "i". -/
def credC2 : Credential :=
  { id := "cred:i:0", issuer := "i", subject := "s",
    schema := "example:student-id-v1", attrs := [],
    merkle := { order := [], root := "", paths := [] },
    status := { list_id := "status:i", index := 0 }, issued_at := 0 }

/-- A reachable state: one credential, no revocations, and the credential's
status-list row holding an empty bitmap. -/
def dbC2 : DB :=
  { credentials := [credC2], revocations := [],
    statuslists := [{ list_id := "status:i", issuer := "i", bitmap := [] }] }

/-- C2 (counterexample): `revoke` succeeds on this state, yet `is_revoked`
on the resulting state is still false — the bit at position 0 of the stored
bitmap for the credential's list was not set within the transaction, while
the claim requires `is_revoked` to return true immediately with no
intervening publish. -/
theorem C2_counterexample :
    (revoke dbC2 "cred:i:0").1 = .ok () ∧
    is_revoked (revoke dbC2 "cred:i:0").2 "status:i" 0 = false := by
  refine ⟨rfl, by decide⟩

theorem C2_revoke_spec_witness :
    (dbC2.credentials.find? (fun cr => cr.id = "cred:i:0") = some credC2) ∧
    ((dbC2.statuslists.find? (fun r =>
      r.list_id = credC2.status.list_id)).isSome) ∧
    (∀ p ∈ dbC2.revocations, p.1 = credC2.status.list_id →
      p.2 ≤ coalesceMax0 dbC2 credC2.status.list_id) ∧
    (∃ db2, revoke dbC2 "cred:i:0" = (.ok (), db2) ∧
      (credC2.status.list_id, credC2.status.index) ∈ db2.revocations ∧
      db2.statuslists = dbC2.statuslists ∧
      db2.credentials = dbC2.credentials ∧
      (∀ l i, is_revoked db2 l i = is_revoked dbC2 l i) ∧
      (∀ db3 res, publish db2 credC2.status.list_id = some (db3, res) →
        is_revoked db3 credC2.status.list_id credC2.status.index = true)) :=
  ⟨by decide, by decide, by decide,
   C2_revoke_spec dbC2 "cred:i:0" credC2 (by decide) (by decide) (by decide)⟩

/-! ### C6: the presentation round trip -/

theorem validate_fresh (s : ChStore) (nonce aud : String) (t tv : Int)
    (hfresh : ¬ (t + 300 < tv)) :
    validate (kvSet s ("ch:" ++ nonce) { aud := aud, exp := t + 300 })
        nonce aud tv =
      ((true, "ok"), kvDel (kvSet s ("ch:" ++ nonce)
        { aud := aud, exp := t + 300 }) ("ch:" ++ nonce)) := by
  unfold validate
  rw [kvGet_kvSet_self]
  simp [hfresh]

/-- C6: for every holder credential, verifier document, attribute selection
and fresh challenge (issued at `t`, verified at `tv` within the 300s
window), verifying the presentation produced by `build` succeeds — provided
the credential is not revoked — and discloses exactly
`{k: attrs[k] for k in reveal_fields if k in attrs}`, with `ok = true` and
message `"verified OK"`; the nonce is consumed in the process. -/
theorem C6_round_trip (s0 : ChStore) (db : DB)
    (holder_doc verifier_doc : DIDDoc) (credential : Credential)
    (reveal_fields : List String) (nonce : String) (t tv : Int)
    (hfresh : ¬ (t + 300 < tv))
    (hrev : is_revoked db credential.status.list_id
      credential.status.index = false) :
    verify_and_extract (jwe_decrypt_for_did
        (build holder_doc verifier_doc credential reveal_fields s0 t nonce).1)
      (build holder_doc verifier_doc credential reveal_fields s0 t nonce).2
      db tv =
    (.ok { ok := true, message := "verified OK",
           disclosed := revealDict credential.attrs reveal_fields },
     kvDel (kvSet s0 ("ch:" ++ nonce)
       { aud := verifier_doc.did, exp := t + 300 }) ("ch:" ++ nonce)) := by
  unfold build issue jwe_encrypt_for_did jwe_decrypt_for_did
  unfold verify_and_extract
  rw [validate_fresh s0 nonce verifier_doc.did t tv hfresh]
  simp [hrev, verify_merkle_proofs]

theorem C6_round_trip_witness :
    (¬ ((0 : Int) + 300 < 100)) ∧
    (is_revoked (⟨[], [], []⟩ : DB) "status:i" 0 = false) ∧
    verify_and_extract (jwe_decrypt_for_did
        (build ⟨"did:h", "hx", "ha", "inbox://h"⟩ ⟨"did:v", "vx", "va", "inbox://v"⟩
          { id := "cred:i:0", issuer := "did:i", subject := "did:h",
            schema := "example:student-id-v1",
            attrs := [("age", Json.num 20), ("name", Json.str "Alice")],
            merkle := { order := ["age", "name"], root := "r", paths := [] },
            status := { list_id := "status:i", index := 0 }, issued_at := 0 }
          ["name"] [] 0 "n").1)
      (build ⟨"did:h", "hx", "ha", "inbox://h"⟩ ⟨"did:v", "vx", "va", "inbox://v"⟩
        { id := "cred:i:0", issuer := "did:i", subject := "did:h",
          schema := "example:student-id-v1",
          attrs := [("age", Json.num 20), ("name", Json.str "Alice")],
          merkle := { order := ["age", "name"], root := "r", paths := [] },
          status := { list_id := "status:i", index := 0 }, issued_at := 0 }
        ["name"] [] 0 "n").2
      (⟨[], [], []⟩ : DB) 100 =
    (.ok { ok := true, message := "verified OK",
           disclosed := revealDict [("age", Json.num 20),
             ("name", Json.str "Alice")] ["name"] },
     kvDel (kvSet [] ("ch:" ++ "n") { aud := "did:v", exp := 0 + 300 })
       ("ch:" ++ "n")) :=
  ⟨by decide, by decide,
   C6_round_trip [] (⟨[], [], []⟩ : DB)
     ⟨"did:h", "hx", "ha", "inbox://h"⟩ ⟨"did:v", "vx", "va", "inbox://v"⟩
     { id := "cred:i:0", issuer := "did:i", subject := "did:h",
       schema := "example:student-id-v1",
       attrs := [("age", Json.num 20), ("name", Json.str "Alice")],
       merkle := { order := ["age", "name"], root := "r", paths := [] },
       status := { list_id := "status:i", index := 0 }, issued_at := 0 }
     ["name"] "n" 0 100 (by decide) (by decide)⟩

end SSI
